import Mathlib

/-!
Verification of the model-fitting and evaluation engine of the
fairness-vs-accuracy experiment code (`FairnesAccuracy_Code.py`).

The engine is shallowly embedded over rationals.  External numeric
collaborators that the engine only orchestrates (the sklearn
`StandardScaler`, the torch autograd/SGD machinery and its `log`, the
sklearn `StratifiedKFold` fold generator) are abstracted as oracle
functions gathered in `TorchOracle` resp. as an explicit `splits`
parameter; everything the repository's own code decides (pre-processing
dispatch, the training loop with its stopping rule, the metric
computations, cross-validation and the hyperparameter sweep) is
embedded directly from the source.
-/

set_option maxHeartbeats 1000000
set_option maxRecDepth 400000

/-- A binary-label dataset, mirroring the fields of an AIF360
`BinaryLabelDataset` that the engine touches: a 2-D feature table, a
label vector, the designated protected-attribute column (stored
separately from `features`, as AIF360 does), and per-instance weights. -/
structure Dataset where
  features : List (List ℚ)
  labels : List ℚ
  protectedAttrs : List ℚ
  instanceWeights : List ℚ
deriving Repr, DecidableEq, Inhabited

/-- AIF360 `dataset.subset(row_indices)`: restrict every per-row field to
the given row indices. -/
def Dataset.subset (d : Dataset) (idx : List ℕ) : Dataset :=
  { features := idx.map (fun i => d.features.getD i [])
    labels := idx.map (fun i => d.labels.getD i 0)
    protectedAttrs := idx.map (fun i => d.protectedAttrs.getD i 0)
    instanceWeights := idx.map (fun i => d.instanceWeights.getD i 0) }

/-- The (protected-attribute value, label) pairs of a dataset's rows. -/
def Dataset.rows (d : Dataset) : List (ℚ × ℚ) :=
  d.protectedAttrs.zip d.labels

/-- `np.mean` of a list of numbers. -/
def npMean (l : List ℚ) : ℚ := l.sum / l.length

/-- `torch.round` on a sigmoid output: sigmoid outputs lie in `(0,1)`,
where round-half-to-even sends `x ≤ 1/2` to `0` and `x > 1/2` to `1`. -/
def roundProb (x : ℚ) : ℚ := if 1/2 < x then 1 else 0

namespace FairnessProcessing

/-- `FairnessProcessing.accuracy_score` (source lines 138-147):
`np.sum(y_pred == y_test) / len(y_test)`. -/
def accuracy_score (y_pred y_test : List ℚ) : ℚ :=
  (((y_pred.zip y_test).countP fun p => decide (p.1 = p.2) : ℕ) : ℚ) / y_test.length

/-- Membership test of a row in the (group, label) cell `(g, l)`, where
`g = true` is the privileged group (attribute value 1) and `l = true`
the favorable label (label value 1). -/
def cellPred (g l : Bool) (r : ℚ × ℚ) : Bool :=
  (decide (r.1 = 1) == g) && (decide (r.2 = 1) == l)

/-- Number of rows in the (group, label) cell `(g, l)`. -/
def cellCount (d : Dataset) (g l : Bool) : ℕ :=
  d.rows.countP (cellPred g l)

/-- Number of rows in protected group `g`. -/
def groupCount (d : Dataset) (g : Bool) : ℕ :=
  d.rows.countP fun r => decide (r.1 = 1) == g

/-- Number of rows with label `l`. -/
def labelCount (d : Dataset) (l : Bool) : ℕ :=
  d.rows.countP fun r => decide (r.2 = 1) == l

/-- Modelled from the spec: the weight the AIF360 `Reweighing`
preprocessor (external to this repository, wrapped by
`FairnessProcessing.reweigh`, source lines 173-190) assigns to the
(group, label) cell `(g, l)` — the ratio of the expected joint frequency
(product of marginals, assuming independence) to the observed joint
frequency of the cell. -/
def cellWeight (d : Dataset) (g l : Bool) : ℚ :=
  (((groupCount d g : ℚ) / d.rows.length) * ((labelCount d l : ℚ) / d.rows.length)) /
    ((cellCount d g l : ℚ) / d.rows.length)

/-- Modelled from the spec: `FairnessProcessing.reweigh` (source lines
173-190) delegates to the AIF360 `Reweighing` preprocessor, which
returns a copy of the training data whose instance weights are the
cell weights of each row's own (group, label) pair; features and labels
are unchanged. -/
def reweigh (data_train : Dataset) : Dataset :=
  { data_train with
    instanceWeights :=
      data_train.rows.map fun r =>
        cellWeight data_train (decide (r.1 = 1)) (decide (r.2 = 1)) }

/-- `FairnessProcessing.suppress_sens` (source lines 193-222): copy both
partitions and slice off the first (`only_sens = true`) or the first two
(`only_sens = false`) feature columns when `suppress_sens` is set. -/
def suppress_sens (data_train data_test : Dataset) (sup only_sens : Bool) :
    Dataset × Dataset :=
  if sup then
    if only_sens then
      ({ data_train with features := data_train.features.map (List.drop 1) },
       { data_test with features := data_test.features.map (List.drop 1) })
    else
      ({ data_train with features := data_train.features.map (List.drop 2) },
       { data_test with features := data_test.features.map (List.drop 2) })
  else (data_train, data_test)

/-- `FairnessProcessing.tradeoff_metric` (source lines 225-240):
`accuracy - abs(fairness) ** 2`. -/
def tradeoff_metric (accuracy fairness : ℚ) : ℚ :=
  accuracy - |fairness| ^ 2

/-- Modelled from the spec: `FairnessProcessing.equal_opp` (source lines
150-170) delegates to AIF360's `equal_opportunity_difference` — the
true-positive rate of the unprivileged group minus that of the
privileged group, among rows whose true label is favorable. -/
def equal_opp (data_test test_predictions : Dataset) : ℚ :=
  let rs := data_test.rows.zip test_predictions.labels
  let tp : Bool → ℚ := fun g =>
    (rs.countP fun x =>
      (decide (x.1.1 = 1) == g) && decide (x.1.2 = 1) && decide (x.2 = 1) : ℕ)
  let pos : Bool → ℚ := fun g =>
    (rs.countP fun x => (decide (x.1.1 = 1) == g) && decide (x.1.2 = 1) : ℕ)
  tp false / pos false - tp true / pos true

/-- Total instance weight of a dataset. -/
def totalWeight (d : Dataset) : ℚ := d.instanceWeights.sum

/-- Total instance weight of the rows in the (group, label) cell `(g, l)`. -/
def weightedCellSum (d : Dataset) (g l : Bool) : ℚ :=
  (((d.rows.zip d.instanceWeights).filter fun x => cellPred g l x.1).map fun x => x.2).sum

/-- Total instance weight of the rows in protected group `g`. -/
def weightedGroupSum (d : Dataset) (g : Bool) : ℚ :=
  (((d.rows.zip d.instanceWeights).filter fun x => decide (x.1.1 = 1) == g).map
    fun x => x.2).sum

/-- Total instance weight of the rows with label `l`. -/
def weightedLabelSum (d : Dataset) (l : Bool) : ℚ :=
  (((d.rows.zip d.instanceWeights).filter fun x => decide (x.1.2 = 1) == l).map
    fun x => x.2).sum

end FairnessProcessing

/-- `nn.BCELoss(weight=w)` with mean reduction (over an abstract `log`):
the mean of `wᵢ · −(yᵢ·log pᵢ + (1−yᵢ)·log(1−pᵢ))`. -/
def bceLoss (log : ℚ → ℚ) (w p y : List ℚ) : ℚ :=
  ((w.zip (p.zip y)).map fun t =>
    t.1 * -(t.2.2 * log t.2.1 + (1 - t.2.2) * log (1 - t.2.1))).sum / p.length

/-- `nn.BCELoss()` with mean reduction (over an abstract `log`): the
unweighted mean binary cross-entropy. -/
def bceUnweighted (log : ℚ → ℚ) (p y : List ℚ) : ℚ :=
  ((p.zip y).map fun t =>
    -(t.2 * log t.1 + (1 - t.2) * log (1 - t.1))).sum / p.length

/-- The external numeric collaborators orchestrated by the engine,
abstracted as oracles:
* `scFit a b` — sklearn `StandardScaler` fitted on feature table `a`
  and applied to feature table `b` (`fit_transform` is `scFit a a`);
* `log` — the logarithm used inside the binary cross-entropy;
* `forward th x` — the logistic-regression model with parameters `th`
  applied to the rows of `x`;
* `step lr reg w x y th` — one full-batch SGD update (learning rate
  `lr`, weight decay `reg`) of parameters `th` for the BCE loss with
  per-instance weights `w` on inputs `x` and targets `y`;
* `init n` — the freshly initialized parameters for input dimension `n`. -/
structure TorchOracle where
  scFit : List (List ℚ) → List (List ℚ) → List (List ℚ)
  log : ℚ → ℚ
  forward : List ℚ → List (List ℚ) → List ℚ
  step : ℚ → ℚ → List ℚ → List (List ℚ) → List ℚ → List ℚ → List ℚ
  init : ℕ → List ℚ

/-- The training loop of `EvaluateModel.fit` (source lines 386-407),
abstracted over the sequence `valLoss it` of unweighted evaluation
losses on the test partition after `it` updates.  The first argument is
the number of remaining epochs, the second the update counter `iter`,
the third `best_loss`.  Each iteration performs one update and
increments `iter`; whenever `iter` is a multiple of 100 the evaluation
loss is computed and compared against `best_loss - 1e-3`: strictly
larger breaks out of the loop, otherwise `best_loss` is replaced.
Returns the final value of `iter`. -/
def trainLoop (valLoss : ℕ → ℚ) : ℕ → ℕ → ℚ → ℕ
  | 0, iter, _ => iter
  | e + 1, iter, best =>
    if (iter + 1) % 100 = 0 then
      if best - 1/1000 < valLoss (iter + 1) then iter + 1
      else trainLoop valLoss e (iter + 1) (valLoss (iter + 1))
    else trainLoop valLoss e (iter + 1) best

/-- The stopping rule as the spec states it, written directly on the
sequence of evaluation losses: with `e` epochs remaining, `100 * k`
updates already performed and best-seen evaluation loss `best`, training
runs out of budget if fewer than 100 epochs remain; otherwise the
unweighted test loss after the next 100 updates is evaluated, training
stops immediately there if it exceeds `best - 1e-3`, and otherwise
`best` is updated and the process continues.  Returns the number of
updates performed. -/
def stoppingSpec (valLoss : ℕ → ℚ) (e k : ℕ) (best : ℚ) : ℕ :=
  if h : e < 100 then 100 * k + e
  else if best - 1/1000 < valLoss (100 * (k + 1)) then 100 * (k + 1)
  else stoppingSpec valLoss (e - 100) (k + 1) (valLoss (100 * (k + 1)))
termination_by e
decreasing_by omega

/-- Everything `EvaluateModel.fit` (source lines 320-426) computes,
recorded as a trace: the scaled tensors, the per-instance weight vector
handed to the loss used for updates, the parameter trajectory, the
per-epoch update loss and evaluation loss, the number of updates
performed, the rounded test predictions, and the `fit_data` metrics
together with the prediction-labeled test copy. -/
structure FitTrace where
  nFeatures : ℕ
  xTrain : List (List ℚ)
  xTest : List (List ℚ)
  yTrain : List ℚ
  yTest : List ℚ
  updateWeights : List ℚ
  thetaAt : ℕ → List ℚ
  updateLossAt : ℕ → ℚ
  valLossAt : ℕ → ℚ
  epoch : ℕ
  predictedLabels : List ℚ
  accuracy : ℚ
  fair : ℚ
  tradeoff : ℚ
  testPredictions : Dataset

namespace EvaluateModel

/-- `EvaluateModel.fit` (source lines 320-426).  Step by step:
suppress the sensitive column(s) if requested (the working partitions
are rebound to the suppressed copies); read off `n_features`; scale
both partitions with a scaler fitted on the training partition and
flatten the labels; initialize the model for `n_features` inputs; if
`reweight` is set compute the Reweighing instance weights of the
(possibly suppressed) training partition and use the weighted BCE for
updates, else the unweighted BCE; run the training loop with `best_loss`
initialized to 10, evaluating the unweighted BCE on the test partition
every 100 updates; finally round the test outputs, compute the
accuracy/fairness/trade-off metrics and the prediction-labeled test
copy.  `thetaAt n` is the parameter vector after `n` SGD updates;
`updateLossAt n` the loss the n-th update differentiates;
`valLossAt it` the evaluation loss after `it` updates. -/
def fit (o : TorchOracle) (data_train data_test : Dataset) (lr reg : ℚ)
    (epochs : ℕ) (reweight sup only_sens : Bool) : FitTrace :=
  let pr := if sup then
      FairnessProcessing.suppress_sens data_train data_test true only_sens
    else (data_train, data_test)
  let dtr := pr.1
  let dte := pr.2
  let nFeatures := (dtr.features.headD []).length
  let xTrain := o.scFit dtr.features dtr.features
  let xTest := o.scFit dtr.features dte.features
  let yTrain := dtr.labels
  let yTest := dte.labels
  let updW := if reweight then (FairnessProcessing.reweigh dtr).instanceWeights
              else List.replicate yTrain.length 1
  let thetaAt := fun n => (o.step lr reg updW xTrain yTrain)^[n] (o.init nFeatures)
  let updateLossAt := fun n =>
    if reweight then bceLoss o.log updW (o.forward (thetaAt n) xTrain) yTrain
    else bceUnweighted o.log (o.forward (thetaAt n) xTrain) yTrain
  let valLossAt := fun it => bceUnweighted o.log (o.forward (thetaAt it) xTest) yTest
  let ep := trainLoop valLossAt epochs 0 10
  let preds := (o.forward (thetaAt ep) xTest).map roundProb
  let acc := FairnessProcessing.accuracy_score preds yTest
  let testPred := { dte with labels := preds }
  let fair := FairnessProcessing.equal_opp dte testPred
  { nFeatures := nFeatures
    xTrain := xTrain
    xTest := xTest
    yTrain := yTrain
    yTest := yTest
    updateWeights := updW
    thetaAt := thetaAt
    updateLossAt := updateLossAt
    valLossAt := valLossAt
    epoch := ep
    predictedLabels := preds
    accuracy := acc
    fair := fair
    tradeoff := FairnessProcessing.tradeoff_metric acc fair
    testPredictions := testPred }

end EvaluateModel

/-- The `mean_metrics` dictionary returned by
`EvaluateModel.cross_validation`. -/
structure CVResult where
  accuracy : ℚ
  fair : ℚ
  epoch : ℚ
  tradeoff : ℚ
deriving Repr, DecidableEq

namespace EvaluateModel

/-- `EvaluateModel.cross_validation` (source lines 429-509).  The fold
index pairs produced by the external sklearn `StratifiedKFold` splitter
(fixed seed) are passed in as `splits`; for each pair the train/test
folds are materialized with `subset`, then: if `suppress_sens` is set,
both folds are suppressed and `fit` is invoked with its remaining
arguments at their defaults (`reweight=False, suppress_sens=False,
only_sens=True`); otherwise if `reweight` is set, `fit` is invoked with
`reweight=True`; otherwise with all flags at their defaults.  Returns
the `np.mean` of each collected metric. -/
def cross_validation (o : TorchOracle) (splits : List (List ℕ × List ℕ))
    (data_train : Dataset) (lr reg : ℚ) (epochs : ℕ)
    (reweight sup only_sens : Bool) : CVResult :=
  let data := data_train
  let results := splits.map fun ti =>
    let train_fold := data.subset ti.1
    let test_fold := data.subset ti.2
    if sup then
      let p := FairnessProcessing.suppress_sens train_fold test_fold true only_sens
      fit o p.1 p.2 lr reg epochs false false true
    else if reweight then
      fit o train_fold test_fold lr reg epochs true false true
    else
      fit o train_fold test_fold lr reg epochs false false true
  { accuracy := npMean (results.map fun t => t.accuracy)
    fair := npMean (results.map fun t => t.fair)
    epoch := npMean (results.map fun t => (t.epoch : ℚ))
    tradeoff := npMean (results.map fun t => t.tradeoff) }

/-- Claim C2's reading of cross-validation, written from the claim's
words: every fold is held out once, the model is trained on the union
of the remaining folds with the supplied learning rate, regularization
strength and epoch budget, and BOTH supplied flags are in effect — the
folds are suppressed when `suppress_sens` is set and the supplied
`reweight` flag is passed through to `fit` in every case. -/
def cross_validation_claimed (o : TorchOracle) (splits : List (List ℕ × List ℕ))
    (data_train : Dataset) (lr reg : ℚ) (epochs : ℕ)
    (reweight sup only_sens : Bool) : CVResult :=
  let results := splits.map fun ti =>
    let train_fold := data_train.subset ti.1
    let test_fold := data_train.subset ti.2
    let p := if sup then
        FairnessProcessing.suppress_sens train_fold test_fold true only_sens
      else (train_fold, test_fold)
    fit o p.1 p.2 lr reg epochs reweight false only_sens
  { accuracy := npMean (results.map fun t => t.accuracy)
    fair := npMean (results.map fun t => t.fair)
    epoch := npMean (results.map fun t => (t.epoch : ℚ))
    tradeoff := npMean (results.map fun t => t.tradeoff) }

/-- The amended description of cross-validation: per fold, when
`suppress_sens` is set the folds are suppressed and `fit` runs with
`reweight=False` — a supplied `reweight=True` is ignored; otherwise the
supplied `reweight` flag is in effect.  The returned dictionary holds
the arithmetic mean over folds of each metric. -/
def cross_validation_amended (o : TorchOracle) (splits : List (List ℕ × List ℕ))
    (data_train : Dataset) (lr reg : ℚ) (epochs : ℕ)
    (reweight sup only_sens : Bool) : CVResult :=
  let results := splits.map fun ti =>
    let train_fold := data_train.subset ti.1
    let test_fold := data_train.subset ti.2
    if sup then
      let p := FairnessProcessing.suppress_sens train_fold test_fold true only_sens
      fit o p.1 p.2 lr reg epochs false false true
    else
      fit o train_fold test_fold lr reg epochs reweight false true
  { accuracy := npMean (results.map fun t => t.accuracy)
    fair := npMean (results.map fun t => t.fair)
    epoch := npMean (results.map fun t => (t.epoch : ℚ))
    tradeoff := npMean (results.map fun t => t.tradeoff) }

end EvaluateModel

/-- The `hyperparam_data` dictionary of parallel output sequences
returned by `EvaluateModel.test_hyperparam`. -/
structure HPData where
  epoch : List ℚ
  lr : List ℚ
  reg : List ℚ
  acc : List ℚ
  fair : List ℚ
  tradeoff : List ℚ

/-- The nested append loop of `test_hyperparam` (outer loop over the
first list, inner loop over the second, appending one entry per
iteration) as a list comprehension. -/
def grid {γ : Type} (f : ℚ → ℚ → γ) : List ℚ → List ℚ → List γ
  | [], _ => []
  | a :: as, bs => bs.map (f a) ++ grid f as bs

namespace EvaluateModel

/-- `EvaluateModel.test_hyperparam` (source lines 512-557): for every
learning rate (outer loop) and every regularization strength (inner
loop), run `cross_validation` on a fresh `EvaluateModel` and append the
hyperparameters and the mean metrics to six parallel sequences. -/
def test_hyperparam (o : TorchOracle) (splits : List (List ℕ × List ℕ))
    (data_train : Dataset) (learning_rates reg_strength : List ℚ) (epochs : ℕ)
    (reweight sup only_sens : Bool) : HPData :=
  { epoch := grid (fun lr reg =>
      (cross_validation o splits data_train lr reg epochs reweight sup only_sens).epoch)
      learning_rates reg_strength
    lr := grid (fun lr _ => lr) learning_rates reg_strength
    reg := grid (fun _ reg => reg) learning_rates reg_strength
    acc := grid (fun lr reg =>
      (cross_validation o splits data_train lr reg epochs reweight sup only_sens).accuracy)
      learning_rates reg_strength
    fair := grid (fun lr reg =>
      (cross_validation o splits data_train lr reg epochs reweight sup only_sens).fair)
      learning_rates reg_strength
    tradeoff := grid (fun lr reg =>
      (cross_validation o splits data_train lr reg epochs reweight sup only_sens).tradeoff)
      learning_rates reg_strength }

end EvaluateModel

/-- Heap allocation of a dataset copy (`dataset.copy()`): the copy is
appended and its reference returned. -/
def hcopy (h : List Dataset) (r : ℕ) : List Dataset × ℕ :=
  (h ++ [h.getD r default], h.length)

/-- Destructive update of the dataset behind reference `r`
(e.g. `obj.features = ...` or `obj.labels = ...`). -/
def hwrite (h : List Dataset) (r : ℕ) (f : Dataset → Dataset) : List Dataset :=
  h.set r (f (h.getD r default))

/-- The effects of one `EvaluateModel.fit` call (source lines 349-426)
on the Python object heap, with datasets addressed by references and
the numeric outputs abstracted as `preds`:
* `suppress_sens` copies both argument datasets and slices the features
  of the copies, and the local partition variables are rebound to the
  copies (source lines 212-220, 352-356);
* `reweigh` hands the (rebound) training partition to AIF360's
  `Reweighing.transform`, which copies it and sets the copy's instance
  weights (source lines 186-189, 378-380);
* the scaler and the training loop only read (source lines 361-407);
* `test_predictions = data_test.copy()` followed by
  `test_predictions.labels = predicted_labels` copies the (rebound) test
  partition and overwrites the copy's labels (source lines 416-417).
Returns the final heap and the reference of `test_predictions`. -/
def fitHeap (h : List Dataset) (rTrain rTest : ℕ)
    (reweight sup only_sens : Bool) (preds : List ℚ) : List Dataset × ℕ :=
  let s1 : List Dataset × ℕ × ℕ :=
    if sup then
      let c1 := hcopy h rTrain
      let c2 := hcopy c1.1 rTest
      let k := if only_sens then 1 else 2
      let h3 := hwrite c2.1 c1.2 fun d => { d with features := d.features.map (List.drop k) }
      let h4 := hwrite h3 c2.2 fun d => { d with features := d.features.map (List.drop k) }
      (h4, c1.2, c2.2)
    else (h, rTrain, rTest)
  let s2 : List Dataset × ℕ × ℕ :=
    if reweight then
      let c3 := hcopy s1.1 s1.2.1
      let h5 := hwrite c3.1 c3.2 FairnessProcessing.reweigh
      (h5, s1.2.1, s1.2.2)
    else s1
  let c4 := hcopy s2.1 s2.2.2
  let h6 := hwrite c4.1 c4.2 fun d => { d with labels := preds }
  (h6, c4.2)

/-- A trivial oracle: identity scaler, zero logarithm, the constant-zero
model, a parameter-preserving SGD step, empty initial parameters. -/
def oracle0 : TorchOracle :=
  { scFit := fun _ m => m
    log := fun _ => 0
    forward := fun _ xs => xs.map fun _ => 0
    step := fun _ _ _ _ _ th => th
    init := fun _ => [] }

/-- A one-row dataset used to instantiate the theorems. -/
def dsA : Dataset :=
  { features := [[1]], labels := [1], protectedAttrs := [1], instanceWeights := [1] }

/-- An oracle whose SGD step stores the per-instance loss weights in the
model parameters and whose model predicts the first parameter, so that
the weight vector handed to the update loss is observable in the fit
metrics. -/
def oracle2 : TorchOracle :=
  { scFit := fun _ m => m
    log := fun _ => 0
    forward := fun th xs => xs.map fun _ => th.headD 0
    step := fun _ _ w _ _ _ => w
    init := fun _ => [0] }

/-- A three-row dataset whose first two rows occupy the (privileged,
favorable) and (unprivileged, unfavorable) cells, so that Reweighing
assigns them weight 1/2. -/
def ds2 : Dataset :=
  { features := [[3, 4], [5, 6], [7, 8]]
    labels := [1, 0, 1]
    protectedAttrs := [1, 0, 1]
    instanceWeights := [1, 1, 1] }

/-- A single fold split: train on rows 0 and 1, hold out row 2. -/
def splits2 : List (List ℕ × List ℕ) := [([0, 1], [2])]

/-- A four-row dataset with one row in each (group, label) cell. -/
def ds4 : Dataset :=
  { features := [[1, 5], [1, 6], [0, 7], [0, 8]]
    labels := [1, 0, 1, 0]
    protectedAttrs := [1, 1, 0, 0]
    instanceWeights := [1, 1, 1, 1] }

/-- `hp` is a heap extension of `h`: it is at least as long and agrees
with `h` on every reference below `h.length`. -/
def ExtendsH (h hp : List Dataset) : Prop :=
  h.length ≤ hp.length ∧ ∀ q, q < h.length → hp[q]? = h[q]?

lemma replicate_zip_map (f : ℚ × ℚ → ℚ) :
    ∀ (p y : List ℚ),
      (((List.replicate p.length (1 : ℚ)).zip (p.zip y)).map fun t => t.1 * f t.2)
        = (p.zip y).map f := by
  intro p
  induction p with
  | nil => intro y; simp
  | cons a p ih =>
    intro y
    cases y with
    | nil => simp
    | cons b y => simp [List.replicate, ih y]

/-- The unit-weight `BCELoss` coincides with the unweighted `BCELoss`. -/
lemma bceLoss_replicate_one (log : ℚ → ℚ) (p y : List ℚ) :
    bceLoss log (List.replicate p.length 1) p y = bceUnweighted log p y := by
  unfold bceLoss bceUnweighted
  rw [replicate_zip_map (fun s => -(s.2 * log s.1 + (1 - s.2) * log (1 - s.1)))]

/-- Stepping the training loop from a position `s` (`0 ≤ s < 100`) inside
a block of 100 epochs: either the remaining budget runs out inside the
block, or the loop reaches the next multiple of 100 and performs the
stopping check there. -/
lemma trainLoop_block (valLoss : ℕ → ℚ) :
    ∀ (e s k : ℕ) (best : ℚ), s < 100 →
    trainLoop valLoss e (100 * k + s) best =
      if e < 100 - s then 100 * k + s + e
      else if best - 1/1000 < valLoss (100 * (k + 1)) then 100 * (k + 1)
      else trainLoop valLoss (e - (100 - s)) (100 * (k + 1)) (valLoss (100 * (k + 1))) := by
  intro e
  induction e with
  | zero =>
    intro s k best hs
    rw [if_pos (by omega)]
    simp [trainLoop]
  | succ e ih =>
    intro s k best hs
    by_cases h99 : s = 99
    · subst h99
      have hiter : 100 * k + 99 + 1 = 100 * (k + 1) := by ring
      have hmod : (100 * k + 99 + 1) % 100 = 0 := by omega
      rw [trainLoop, if_pos hmod, hiter]
      rw [if_neg (show ¬(e + 1 < 100 - 99) by omega)]
      rw [show e + 1 - (100 - 99) = e by omega]
    · have hs' : s + 1 < 100 := by omega
      have hiter : 100 * k + s + 1 = 100 * k + (s + 1) := by ring
      have hmod : (100 * k + (s + 1)) % 100 ≠ 0 := by omega
      rw [trainLoop, hiter, if_neg hmod]
      rw [ih (s + 1) k best hs']
      by_cases hlt : e < 100 - (s + 1)
      · rw [if_pos hlt, if_pos (show e + 1 < 100 - s by omega)]
        omega
      · rw [if_neg hlt, if_neg (show ¬(e + 1 < 100 - s) by omega)]
        rw [show e - (100 - (s + 1)) = e + 1 - (100 - s) by omega]

/-- The training loop of `fit`, started at a multiple of 100 updates,
computes exactly the stopping rule as specified. -/
lemma trainLoop_eq_spec (valLoss : ℕ → ℚ) (e k : ℕ) (best : ℚ) :
    trainLoop valLoss e (100 * k) best = stoppingSpec valLoss e k best := by
  have hb := trainLoop_block valLoss e 0 k best (by omega)
  rw [Nat.add_zero] at hb
  rw [hb, stoppingSpec]
  by_cases h : e < 100
  · rw [if_pos (by omega), dif_pos h]
  · rw [if_neg (by omega), dif_neg h]
    by_cases ht : best - 1/1000 < valLoss (100 * (k + 1))
    · rw [if_pos ht, if_pos ht]
    · rw [if_neg ht, if_neg ht]
      rw [trainLoop_eq_spec valLoss (e - 100) (k + 1) (valLoss (100 * (k + 1)))]
termination_by e
decreasing_by omega

/-- The training loop performs at most as many updates as it has epochs
of budget left. -/
lemma trainLoop_le (valLoss : ℕ → ℚ) :
    ∀ (e iter : ℕ) (best : ℚ), trainLoop valLoss e iter best ≤ iter + e := by
  intro e
  induction e with
  | zero => intro iter best; simp [trainLoop]
  | succ e ih =>
    intro iter best
    rw [trainLoop]
    by_cases hmod : (iter + 1) % 100 = 0
    · rw [if_pos hmod]
      by_cases ht : best - 1/1000 < valLoss (iter + 1)
      · rw [if_pos ht]; omega
      · rw [if_neg ht]
        have := ih (iter + 1) (valLoss (iter + 1))
        omega
    · rw [if_neg hmod]
      have := ih (iter + 1) best
      omega

/-- The stopping rule performs at least `100 * k` updates, with equality
exactly when the remaining budget is zero. -/
lemma stoppingSpec_lower (valLoss : ℕ → ℚ) (e k : ℕ) (best : ℚ) :
    100 * k ≤ stoppingSpec valLoss e k best ∧
      (stoppingSpec valLoss e k best = 100 * k ↔ e = 0) := by
  rw [stoppingSpec]
  by_cases h : e < 100
  · rw [dif_pos h]; omega
  · rw [dif_neg h]
    by_cases ht : best - 1/1000 < valLoss (100 * (k + 1))
    · rw [if_pos ht]
      constructor
      · omega
      · omega
    · rw [if_neg ht]
      have := stoppingSpec_lower valLoss (e - 100) (k + 1) (valLoss (100 * (k + 1)))
      omega
termination_by e
decreasing_by omega

/-- CLAIM C5: `tradeoff_metric(a, f)` equals `a - f²` (squaring the
absolute value has no effect), hence it is an even function of the
fairness argument. -/
theorem tradeoff_metric_sq_abs_even (a f : ℚ) :
    FairnessProcessing.tradeoff_metric a f = a - f ^ 2 ∧
    FairnessProcessing.tradeoff_metric a f = FairnessProcessing.tradeoff_metric a (-f) := by
  unfold FairnessProcessing.tradeoff_metric
  rw [sq_abs]
  constructor
  · rfl
  · rw [abs_neg, sq_abs]

/-- CLAIM C1: for every `fit` call with `epochs ≥ 100`, the training loop
performs one full-batch update per epoch (`thetaAt` iterates the SGD
step from the initial parameters), evaluates the unweighted test loss on
every epoch whose 1-based index is a multiple of 100, stops there
exactly when that loss exceeds `best_loss - 1e-3` and updates
`best_loss` otherwise (the `stoppingSpec` recurrence, started from
`best_loss = 10`), stops unconditionally after `epochs` updates, and the
returned `epoch` field is the number of updates actually performed. -/
theorem fit_stopping_rule (o : TorchOracle) (data_train data_test : Dataset)
    (lr reg : ℚ) (epochs : ℕ) (reweight sup only_sens : Bool)
    (h : 100 ≤ epochs) :
    let tr := EvaluateModel.fit o data_train data_test lr reg epochs reweight sup only_sens
    tr.epoch = stoppingSpec tr.valLossAt epochs 0 10 ∧
    tr.epoch ≤ epochs ∧
    (∀ it, tr.valLossAt it =
      bceUnweighted o.log (o.forward (tr.thetaAt it) tr.xTest) tr.yTest) ∧
    (∀ n, tr.thetaAt n =
      (o.step lr reg tr.updateWeights tr.xTrain tr.yTrain)^[n] (o.init tr.nFeatures)) := by
  intro tr
  refine ⟨?_, ?_, fun it => rfl, fun n => rfl⟩
  · exact trainLoop_eq_spec tr.valLossAt epochs 0 10
  · simpa using trainLoop_le tr.valLossAt epochs 0 10

/-- Witness for C1 at a concrete call with `epochs = 150`. -/
theorem fit_stopping_rule_witness :
    let tr := EvaluateModel.fit oracle0 dsA dsA 1 0 150 false false true
    tr.epoch = stoppingSpec tr.valLossAt 150 0 10 ∧
    tr.epoch ≤ 150 ∧
    (∀ it, tr.valLossAt it =
      bceUnweighted oracle0.log (oracle0.forward (tr.thetaAt it) tr.xTest) tr.yTest) ∧
    (∀ n, tr.thetaAt n =
      (oracle0.step 1 0 tr.updateWeights tr.xTrain tr.yTrain)^[n]
        (oracle0.init tr.nFeatures)) :=
  fit_stopping_rule oracle0 dsA dsA 1 0 150 false false true (by norm_num)

/-- CLAIM C9 (amended): `best_loss` is initialized to the constant 10,
so the first stopping check at epoch 100 compares the test loss against
`10 - 1e-3`; `fit` performs at least 100 updates whenever
`epochs ≥ 100`, and it stops at epoch 100 exactly when the test loss at
that point exceeds `10 - 1e-3` or the epoch budget is exactly 100 (in
which case the budget is exhausted at the same point). -/
theorem fit_first_check_against_ten (o : TorchOracle) (data_train data_test : Dataset)
    (lr reg : ℚ) (epochs : ℕ) (reweight sup only_sens : Bool)
    (h : 100 ≤ epochs) :
    let tr := EvaluateModel.fit o data_train data_test lr reg epochs reweight sup only_sens
    100 ≤ tr.epoch ∧
    (tr.epoch = 100 ↔ (10 - 1/1000 < tr.valLossAt 100 ∨ epochs = 100)) := by
  intro tr
  have he : tr.epoch = stoppingSpec tr.valLossAt epochs 0 10 :=
    trainLoop_eq_spec tr.valLossAt epochs 0 10
  rw [he, stoppingSpec, dif_neg (show ¬(epochs < 100) by omega)]
  rw [show 100 * (0 + 1) = 100 by norm_num]
  by_cases ht : (10 : ℚ) - 1/1000 < tr.valLossAt 100
  · rw [if_pos ht]
    exact ⟨le_refl 100, fun _ => Or.inl ht, fun _ => rfl⟩
  · rw [if_neg ht]
    have hl := stoppingSpec_lower tr.valLossAt (epochs - 100) (0 + 1) (tr.valLossAt 100)
    refine ⟨by omega, ?_, ?_⟩
    · intro hS
      right
      have h0 : epochs - 100 = 0 := hl.2.mp (by omega)
      omega
    · rintro (hlt | heq)
      · exact absurd hlt ht
      · have h0 : epochs - 100 = 0 := by omega
        have := hl.2.mpr h0
        omega

/-- Counterexample to C9 as stated: with an epoch budget of exactly 100
and an evaluation loss that never exceeds `10 - 1e-3`, `fit` still stops
at epoch 100 — the budget is exhausted there — although the test loss at
that point does not exceed `10 - 1e-3`. -/
theorem fit_epoch100_budget_counterexample :
    (EvaluateModel.fit oracle0 dsA dsA 1 0 100 false false true).epoch = 100 ∧
    ¬(10 - 1/1000 <
      (EvaluateModel.fit oracle0 dsA dsA 1 0 100 false false true).valLossAt 100) := by
  constructor
  · with_unfolding_all decide
  · with_unfolding_all decide

/-- Witness for the amended C9 at a concrete call with `epochs = 200`. -/
theorem fit_first_check_against_ten_witness :
    let tr := EvaluateModel.fit oracle0 dsA dsA 1 0 200 false false true
    100 ≤ tr.epoch ∧
    (tr.epoch = 100 ↔ (10 - 1/1000 < tr.valLossAt 100 ∨ 200 = 100)) :=
  fit_first_check_against_ten oracle0 dsA dsA 1 0 200 false false true (by norm_num)

lemma headD_map_drop (k : ℕ) (m : List (List ℚ)) :
    ((m.map (List.drop k)).headD []).length = (m.headD []).length - k := by
  cases m with
  | nil => simp
  | cons a m => simp

/-- CLAIM C6: in every `fit` call with `suppress_sens = true`, the first
feature column (`only_sens = true`) resp. the first two feature columns
(`only_sens = false`) of both partitions are removed, the scaler is
fitted and applied to the already-suppressed feature tables, and the
surviving feature count (the suppressed width) is the input dimension
the classifier is initialized with. -/
theorem fit_suppression_before_scaling (o : TorchOracle)
    (data_train data_test : Dataset) (lr reg : ℚ) (epochs : ℕ)
    (reweight only_sens : Bool) :
    let k := if only_sens then 1 else 2
    let tr := EvaluateModel.fit o data_train data_test lr reg epochs reweight true only_sens
    tr.xTrain = o.scFit (data_train.features.map (List.drop k))
        (data_train.features.map (List.drop k)) ∧
    tr.xTest = o.scFit (data_train.features.map (List.drop k))
        (data_test.features.map (List.drop k)) ∧
    tr.nFeatures = (data_train.features.headD []).length - k ∧
    tr.thetaAt 0 = o.init tr.nFeatures := by
  cases only_sens
  · exact ⟨rfl, rfl, headD_map_drop 2 data_train.features, rfl⟩
  · exact ⟨rfl, rfl, headD_map_drop 1 data_train.features, rfl⟩

/-- CLAIM C4: in every `fit` call with `reweight = true`, the weight
vector of the loss driving the parameter updates is the instance-weight
vector the Reweighing preprocessor assigns to the training partition
(the per-epoch update loss is the BCE weighted by exactly those
weights, and each SGD step receives them), while the loss evaluated on
the held-out test partition for the every-100-epochs stopping check is
the unweighted BCE — which coincides with the BCE under unit weights. -/
theorem fit_reweight_loss_selection (o : TorchOracle)
    (data_train data_test : Dataset) (lr reg : ℚ) (epochs : ℕ)
    (sup only_sens : Bool) :
    let tr := EvaluateModel.fit o data_train data_test lr reg epochs true sup only_sens
    tr.updateWeights = (FairnessProcessing.reweigh data_train).instanceWeights ∧
    (∀ n, tr.updateLossAt n =
      bceLoss o.log (FairnessProcessing.reweigh data_train).instanceWeights
        (o.forward (tr.thetaAt n) tr.xTrain) data_train.labels) ∧
    (∀ n, tr.thetaAt (n + 1) =
      o.step lr reg (FairnessProcessing.reweigh data_train).instanceWeights
        tr.xTrain data_train.labels (tr.thetaAt n)) ∧
    (∀ it, tr.valLossAt it =
      bceUnweighted o.log (o.forward (tr.thetaAt it) tr.xTest) data_test.labels) ∧
    (∀ p y, bceUnweighted o.log p y = bceLoss o.log (List.replicate p.length 1) p y) := by
  cases sup
  · exact ⟨rfl, fun n => rfl,
      fun n => Function.iterate_succ_apply' _ n _,
      fun it => rfl,
      fun p y => (bceLoss_replicate_one o.log p y).symm⟩
  · cases only_sens
    · exact ⟨rfl, fun n => rfl,
        fun n => Function.iterate_succ_apply' _ n _,
        fun it => rfl,
        fun p y => (bceLoss_replicate_one o.log p y).symm⟩
    · exact ⟨rfl, fun n => rfl,
        fun n => Function.iterate_succ_apply' _ n _,
        fun it => rfl,
        fun p y => (bceLoss_replicate_one o.log p y).symm⟩

lemma roundProb_mem (x : ℚ) : roundProb x = 0 ∨ roundProb x = 1 := by
  unfold roundProb
  split
  · right; rfl
  · left; rfl

/-- `accuracy_score` is a fraction of exact matches, hence in `[0, 1]`
whenever the ground-truth vector is non-empty. -/
lemma accuracy_score_mem_unit (p y : List ℚ) (hy : y ≠ []) :
    0 ≤ FairnessProcessing.accuracy_score p y ∧
      FairnessProcessing.accuracy_score p y ≤ 1 := by
  unfold FairnessProcessing.accuracy_score
  have hlen : 0 < (y.length : ℚ) := by
    exact_mod_cast List.length_pos.mpr hy
  constructor
  · positivity
  · rw [div_le_one hlen]
    have hcount : ((p.zip y).countP fun q => decide (q.1 = q.2)) ≤ y.length := by
      calc ((p.zip y).countP fun q => decide (q.1 = q.2)) ≤ (p.zip y).length :=
            List.countP_le_length _
        _ ≤ y.length := by rw [List.length_zip]; omega
    exact_mod_cast hcount

/-- CLAIM C8: after the training loop stops, the test outputs are rounded
to `{0, 1}`, the returned accuracy is the fraction of test rows whose
rounded prediction exactly matches the true label — a value in `[0, 1]`
for every non-empty test partition — and the returned test copy is the
working test dataset with its labels replaced by the rounded
predictions (in particular, for `suppress_sens = false` its features
are exactly the caller's test features). -/
theorem fit_accuracy_rounded_predictions (o : TorchOracle)
    (data_train data_test : Dataset) (lr reg : ℚ) (epochs : ℕ)
    (reweight sup only_sens : Bool) (h : data_test.labels ≠ []) :
    let tr := EvaluateModel.fit o data_train data_test lr reg epochs reweight sup only_sens
    tr.accuracy = (((tr.predictedLabels.zip data_test.labels).countP
        fun q => decide (q.1 = q.2) : ℕ) : ℚ) / data_test.labels.length ∧
    0 ≤ tr.accuracy ∧ tr.accuracy ≤ 1 ∧
    (∀ x ∈ tr.predictedLabels, x = 0 ∨ x = 1) ∧
    tr.testPredictions.labels = tr.predictedLabels ∧
    tr.testPredictions.protectedAttrs = data_test.protectedAttrs ∧
    tr.testPredictions.instanceWeights = data_test.instanceWeights ∧
    (sup = false → tr.testPredictions.features = data_test.features) := by
  cases sup with
  | false =>
    intro tr
    refine ⟨rfl, (accuracy_score_mem_unit tr.predictedLabels data_test.labels h).1,
      (accuracy_score_mem_unit tr.predictedLabels data_test.labels h).2,
      ?_, rfl, rfl, rfl, fun _ => rfl⟩
    intro x hx
    obtain ⟨v, -, hv⟩ := List.mem_map.mp hx
    rw [← hv]
    exact roundProb_mem v
  | true =>
    cases only_sens with
    | false =>
      intro tr
      refine ⟨rfl, (accuracy_score_mem_unit tr.predictedLabels data_test.labels h).1,
        (accuracy_score_mem_unit tr.predictedLabels data_test.labels h).2,
        ?_, rfl, rfl, rfl, fun hc => Bool.noConfusion hc⟩
      intro x hx
      obtain ⟨v, -, hv⟩ := List.mem_map.mp hx
      rw [← hv]
      exact roundProb_mem v
    | true =>
      intro tr
      refine ⟨rfl, (accuracy_score_mem_unit tr.predictedLabels data_test.labels h).1,
        (accuracy_score_mem_unit tr.predictedLabels data_test.labels h).2,
        ?_, rfl, rfl, rfl, fun hc => Bool.noConfusion hc⟩
      intro x hx
      obtain ⟨v, -, hv⟩ := List.mem_map.mp hx
      rw [← hv]
      exact roundProb_mem v

/-- Witness for C8 at a concrete call with a non-empty test partition. -/
theorem fit_accuracy_rounded_predictions_witness :
    let tr := EvaluateModel.fit oracle0 dsA dsA 1 0 100 false false true
    tr.accuracy = (((tr.predictedLabels.zip dsA.labels).countP
        fun q => decide (q.1 = q.2) : ℕ) : ℚ) / dsA.labels.length ∧
    0 ≤ tr.accuracy ∧ tr.accuracy ≤ 1 ∧
    (∀ x ∈ tr.predictedLabels, x = 0 ∨ x = 1) ∧
    tr.testPredictions.labels = tr.predictedLabels ∧
    tr.testPredictions.protectedAttrs = dsA.protectedAttrs ∧
    tr.testPredictions.instanceWeights = dsA.instanceWeights ∧
    (false = false → tr.testPredictions.features = dsA.features) :=
  fit_accuracy_rounded_predictions oracle0 dsA dsA 1 0 100 false false true
    (by simp [dsA])

lemma hcopy_fst_length (hp : List Dataset) (r : ℕ) :
    (hcopy hp r).1.length = hp.length + 1 := by
  simp [hcopy]

lemma hwrite_length (hp : List Dataset) (r : ℕ) (f : Dataset → Dataset) :
    (hwrite hp r f).length = hp.length := by
  simp [hwrite]

lemma hcopy_preserves (hp : List Dataset) (r q : ℕ) (hq : q < hp.length) :
    (hcopy hp r).1[q]? = hp[q]? := by
  unfold hcopy
  rw [List.getElem?_append, if_pos hq]

lemma hwrite_preserves (hp : List Dataset) (r q : ℕ) (f : Dataset → Dataset)
    (hne : q ≠ r) : (hwrite hp r f)[q]? = hp[q]? := by
  unfold hwrite
  exact List.getElem?_set_ne (Ne.symm hne)

lemma extendsH_refl (h : List Dataset) : ExtendsH h h :=
  ⟨le_refl _, fun _ _ => rfl⟩

lemma extendsH_hcopy (h hp : List Dataset) (e : ExtendsH h hp) (r : ℕ) :
    ExtendsH h (hcopy hp r).1 := by
  refine ⟨?_, fun q hq => ?_⟩
  · rw [hcopy_fst_length]; exact Nat.le_succ_of_le e.1
  · rw [hcopy_preserves hp r q (lt_of_lt_of_le hq e.1)]
    exact e.2 q hq

lemma extendsH_hwrite (h hp : List Dataset) (e : ExtendsH h hp) (r : ℕ)
    (hr : h.length ≤ r) (f : Dataset → Dataset) : ExtendsH h (hwrite hp r f) := by
  refine ⟨?_, fun q hq => ?_⟩
  · rw [hwrite_length]; exact e.1
  · rw [hwrite_preserves hp r q f (by omega)]
    exact e.2 q hq

/-- CLAIM C10: `fit` never mutates its caller's datasets — whatever the
`reweight`, `suppress_sens` and `only_sens` flags, every dataset the
caller holds a reference to (in particular `data_train` at `rTrain` and
`data_test` at `rTest`) is unchanged on the heap after the call, because
suppression, reweighing and the prediction-labeled result all operate on
freshly allocated copies. -/
theorem fit_no_caller_mutation (h : List Dataset) (rTrain rTest : ℕ)
    (reweight sup only_sens : Bool) (preds : List ℚ) (q : ℕ)
    (hq : q < h.length) :
    ((fitHeap h rTrain rTest reweight sup only_sens preds).1)[q]? = h[q]? := by
  cases sup <;> cases reweight
  · exact (extendsH_hwrite h (hcopy h rTest).1
      (extendsH_hcopy h h (extendsH_refl h) rTest)
      (hcopy h rTest).2 (le_refl h.length)
      (fun d => { d with labels := preds })).2 q hq
  · have e1 := extendsH_hcopy h h (extendsH_refl h) rTrain
    have e2 := extendsH_hwrite h (hcopy h rTrain).1 e1 (hcopy h rTrain).2
      (le_refl h.length) FairnessProcessing.reweigh
    have e3 := extendsH_hcopy h
      (hwrite (hcopy h rTrain).1 (hcopy h rTrain).2 FairnessProcessing.reweigh) e2 rTest
    exact (extendsH_hwrite h
      (hcopy (hwrite (hcopy h rTrain).1 (hcopy h rTrain).2 FairnessProcessing.reweigh) rTest).1
      e3
      (hcopy (hwrite (hcopy h rTrain).1 (hcopy h rTrain).2 FairnessProcessing.reweigh) rTest).2
      e2.1 (fun d => { d with labels := preds })).2 q hq
  · have e1 := extendsH_hcopy h h (extendsH_refl h) rTrain
    have e2 := extendsH_hcopy h (hcopy h rTrain).1 e1 rTest
    have e3 := extendsH_hwrite h (hcopy (hcopy h rTrain).1 rTest).1 e2
      (hcopy h rTrain).2 (le_refl h.length)
      (fun d => { d with features := d.features.map (List.drop (if only_sens then 1 else 2)) })
    have e4 := extendsH_hwrite h _ e3 (hcopy (hcopy h rTrain).1 rTest).2 e1.1
      (fun d => { d with features := d.features.map (List.drop (if only_sens then 1 else 2)) })
    have e5 := extendsH_hcopy h _ e4 (hcopy (hcopy h rTrain).1 rTest).2
    exact (extendsH_hwrite h _ e5 _ e4.1 (fun d => { d with labels := preds })).2 q hq
  · have e1 := extendsH_hcopy h h (extendsH_refl h) rTrain
    have e2 := extendsH_hcopy h (hcopy h rTrain).1 e1 rTest
    have e3 := extendsH_hwrite h (hcopy (hcopy h rTrain).1 rTest).1 e2
      (hcopy h rTrain).2 (le_refl h.length)
      (fun d => { d with features := d.features.map (List.drop (if only_sens then 1 else 2)) })
    have e4 := extendsH_hwrite h _ e3 (hcopy (hcopy h rTrain).1 rTest).2 e1.1
      (fun d => { d with features := d.features.map (List.drop (if only_sens then 1 else 2)) })
    have e5 := extendsH_hcopy h _ e4 (hcopy h rTrain).2
    have e6 := extendsH_hwrite h _ e5 _ e4.1 FairnessProcessing.reweigh
    have e7 := extendsH_hcopy h _ e6 (hcopy (hcopy h rTrain).1 rTest).2
    exact (extendsH_hwrite h _ e7 _ e6.1 (fun d => { d with labels := preds })).2 q hq

/-- Witness for C10 at a concrete two-dataset heap with both flags set. -/
theorem fit_no_caller_mutation_witness :
    0 < ([dsA, ds2] : List Dataset).length ∧
    ((fitHeap [dsA, ds2] 0 1 true true true [1]).1)[0]? = ([dsA, ds2] : List Dataset)[0]? :=
  ⟨by norm_num, fit_no_caller_mutation [dsA, ds2] 0 1 true true true [1] 0 (by norm_num)⟩

/-- CLAIM C2 (amended): each supplied fold pair is held out once and the
model is trained via `fit` on the union of the other folds with the
supplied learning rate, regularization strength and epoch budget, and
the returned dictionary holds the arithmetic mean over folds of
accuracy, fairness, tradeoff and epoch; however, when `suppress_sens`
is set the folds are suppressed and `fit` is invoked with
`reweight=False`, so a supplied `reweight=True` is ignored — only when
`suppress_sens` is unset is the `reweight` flag in effect. -/
theorem cross_validation_flag_dispatch (o : TorchOracle)
    (splits : List (List ℕ × List ℕ)) (data_train : Dataset) (lr reg : ℚ)
    (epochs : ℕ) (reweight sup only_sens : Bool) :
    EvaluateModel.cross_validation o splits data_train lr reg epochs reweight sup only_sens =
      EvaluateModel.cross_validation_amended o splits data_train lr reg epochs
        reweight sup only_sens := by
  cases sup <;> cases reweight <;> rfl

/-- Counterexample to C2 as stated: a concrete call with
`reweight=True` and `suppress_sens=True` in which `cross_validation`
does not behave as it would if both supplied flags were in effect — the
reweighing preprocessing is silently dropped, which changes the
resulting mean accuracy. -/
theorem cross_validation_reweight_ignored_counterexample :
    (EvaluateModel.cross_validation oracle2 splits2 ds2 1 0 1 true true true).accuracy ≠
      (EvaluateModel.cross_validation_claimed oracle2 splits2 ds2 1 0 1 true true true).accuracy := by
  with_unfolding_all decide

lemma grid_length {γ : Type} (f : ℚ → ℚ → γ) (as bs : List ℚ) :
    (grid f as bs).length = as.length * bs.length := by
  induction as with
  | nil => simp [grid]
  | cons a as ih =>
    simp only [grid, List.length_append, List.length_map, ih, List.length_cons]
    rw [Nat.succ_mul]
    omega

lemma grid_get {γ : Type} (f : ℚ → ℚ → γ) (as bs : List ℚ) (i j : ℕ)
    (hi : i < as.length) (hj : j < bs.length) :
    (grid f as bs)[i * bs.length + j]? = some (f as[i] bs[j]) := by
  induction as generalizing i with
  | nil => simp at hi
  | cons a as ih =>
    cases i with
    | zero =>
      rw [show grid f (a :: as) bs = bs.map (f a) ++ grid f as bs from rfl]
      rw [Nat.zero_mul, Nat.zero_add]
      rw [List.getElem?_append, if_pos (by simpa using hj)]
      rw [List.getElem?_map, List.getElem?_eq_getElem hj]
      rfl
    | succ i =>
      rw [show grid f (a :: as) bs = bs.map (f a) ++ grid f as bs from rfl]
      rw [List.getElem?_append,
        if_neg (by rw [List.length_map, Nat.succ_mul]; omega)]
      have hidx : (i + 1) * bs.length + j - (bs.map (f a)).length = i * bs.length + j := by
        rw [List.length_map, Nat.succ_mul]
        omega
      rw [hidx]
      exact ih i (by simpa using hi)

/-- CLAIM C3: every output sequence of `test_hyperparam` with `L`
learning rates and `R` regularization strengths has length exactly
`L * R`, and entry `i * R + j` of every sequence belongs to the
cross-validation trial with `learning_rates[i]` and `reg_strength[j]` —
one cross-validation per pair of the full Cartesian product, outer loop
over learning rates, inner loop over regularization strengths, with no
deduplication and no early termination. -/
theorem test_hyperparam_grid_indexing (o : TorchOracle)
    (splits : List (List ℕ × List ℕ)) (data_train : Dataset)
    (lrs regs : List ℚ) (epochs : ℕ) (reweight sup only_sens : Bool)
    (i j : ℕ) (hi : i < lrs.length) (hj : j < regs.length) :
    let hp := EvaluateModel.test_hyperparam o splits data_train lrs regs epochs
      reweight sup only_sens
    hp.epoch.length = lrs.length * regs.length ∧
    hp.lr.length = lrs.length * regs.length ∧
    hp.reg.length = lrs.length * regs.length ∧
    hp.acc.length = lrs.length * regs.length ∧
    hp.fair.length = lrs.length * regs.length ∧
    hp.tradeoff.length = lrs.length * regs.length ∧
    hp.lr[i * regs.length + j]? = some lrs[i] ∧
    hp.reg[i * regs.length + j]? = some regs[j] ∧
    hp.acc[i * regs.length + j]? = some
      (EvaluateModel.cross_validation o splits data_train lrs[i] regs[j] epochs
        reweight sup only_sens).accuracy ∧
    hp.fair[i * regs.length + j]? = some
      (EvaluateModel.cross_validation o splits data_train lrs[i] regs[j] epochs
        reweight sup only_sens).fair ∧
    hp.epoch[i * regs.length + j]? = some
      (EvaluateModel.cross_validation o splits data_train lrs[i] regs[j] epochs
        reweight sup only_sens).epoch ∧
    hp.tradeoff[i * regs.length + j]? = some
      (EvaluateModel.cross_validation o splits data_train lrs[i] regs[j] epochs
        reweight sup only_sens).tradeoff := by
  intro hp
  exact ⟨grid_length _ lrs regs, grid_length _ lrs regs, grid_length _ lrs regs,
    grid_length _ lrs regs, grid_length _ lrs regs, grid_length _ lrs regs,
    grid_get _ lrs regs i j hi hj, grid_get _ lrs regs i j hi hj,
    grid_get _ lrs regs i j hi hj, grid_get _ lrs regs i j hi hj,
    grid_get _ lrs regs i j hi hj, grid_get _ lrs regs i j hi hj⟩

/-- Witness for C3 with two learning rates and one regularization
strength, at entry `(i, j) = (1, 0)`. -/
theorem test_hyperparam_grid_indexing_witness :
    let hp := EvaluateModel.test_hyperparam oracle0 splits2 ds2 [1, 2] [3] 1
      false false true
    hp.epoch.length = ([1, 2] : List ℚ).length * ([3] : List ℚ).length ∧
    hp.lr.length = ([1, 2] : List ℚ).length * ([3] : List ℚ).length ∧
    hp.reg.length = ([1, 2] : List ℚ).length * ([3] : List ℚ).length ∧
    hp.acc.length = ([1, 2] : List ℚ).length * ([3] : List ℚ).length ∧
    hp.fair.length = ([1, 2] : List ℚ).length * ([3] : List ℚ).length ∧
    hp.tradeoff.length = ([1, 2] : List ℚ).length * ([3] : List ℚ).length ∧
    hp.lr[1 * ([3] : List ℚ).length + 0]? = some (([1, 2] : List ℚ)[1]) ∧
    hp.reg[1 * ([3] : List ℚ).length + 0]? = some (([3] : List ℚ)[0]) ∧
    hp.acc[1 * ([3] : List ℚ).length + 0]? = some
      (EvaluateModel.cross_validation oracle0 splits2 ds2 (([1, 2] : List ℚ)[1])
        (([3] : List ℚ)[0]) 1 false false true).accuracy ∧
    hp.fair[1 * ([3] : List ℚ).length + 0]? = some
      (EvaluateModel.cross_validation oracle0 splits2 ds2 (([1, 2] : List ℚ)[1])
        (([3] : List ℚ)[0]) 1 false false true).fair ∧
    hp.epoch[1 * ([3] : List ℚ).length + 0]? = some
      (EvaluateModel.cross_validation oracle0 splits2 ds2 (([1, 2] : List ℚ)[1])
        (([3] : List ℚ)[0]) 1 false false true).epoch ∧
    hp.tradeoff[1 * ([3] : List ℚ).length + 0]? = some
      (EvaluateModel.cross_validation oracle0 splits2 ds2 (([1, 2] : List ℚ)[1])
        (([3] : List ℚ)[0]) 1 false false true).tradeoff :=
  test_hyperparam_grid_indexing oracle0 splits2 ds2 [1, 2] [3] 1 false false true
    1 0 (by norm_num) (by norm_num)

lemma zipWeights_filter_sum (wt : ℚ × ℚ → ℚ) (p : ℚ × ℚ → Bool) :
    ∀ rs : List (ℚ × ℚ),
      (((rs.zip (rs.map wt)).filter fun x => p x.1).map fun x => x.2).sum
        = ((rs.filter p).map wt).sum := by
  intro rs
  induction rs with
  | nil => rfl
  | cons r rs ih =>
    by_cases hp : p r
    · simp [List.filter_cons, hp, ih]
    · simp [List.filter_cons, hp, ih]

lemma filter_map_sum_const (p : ℚ × ℚ → Bool) (wt : ℚ × ℚ → ℚ) (c : ℚ)
    (rs : List (ℚ × ℚ)) (hc : ∀ r, p r = true → wt r = c) :
    ((rs.filter p).map wt).sum = (rs.countP p : ℚ) * c := by
  induction rs with
  | nil => simp
  | cons r rs ih =>
    by_cases hp : p r
    · simp only [List.filter_cons, hp, if_pos, List.map_cons, List.sum_cons,
        List.countP_cons, ih, hc r hp]
      push_cast
      ring
    · simp [List.filter_cons, hp, List.countP_cons, ih]

lemma map_wt_sum (F : Bool → Bool → ℚ) :
    ∀ rs : List (ℚ × ℚ),
      (rs.map fun r => F (decide (r.1 = 1)) (decide (r.2 = 1))).sum
        = (rs.countP (FairnessProcessing.cellPred true true) : ℚ) * F true true
          + (rs.countP (FairnessProcessing.cellPred true false) : ℚ) * F true false
          + (rs.countP (FairnessProcessing.cellPred false true) : ℚ) * F false true
          + (rs.countP (FairnessProcessing.cellPred false false) : ℚ) * F false false := by
  intro rs
  induction rs with
  | nil => simp
  | cons r rs ih =>
    obtain ⟨a, b⟩ := r
    simp only [List.map_cons, List.sum_cons, List.countP_cons, ih,
      FairnessProcessing.cellPred]
    by_cases h1 : a = 1 <;> by_cases h2 : b = 1 <;>
      simp [h1, h2] <;> push_cast <;> ring

lemma filter_map_wt_sum (F : Bool → Bool → ℚ) (p : Bool → Bool → Bool) :
    ∀ rs : List (ℚ × ℚ),
      ((rs.filter fun r => p (decide (r.1 = 1)) (decide (r.2 = 1))).map
        fun r => F (decide (r.1 = 1)) (decide (r.2 = 1))).sum
        = (if p true true then
            (rs.countP (FairnessProcessing.cellPred true true) : ℚ) * F true true else 0)
          + (if p true false then
            (rs.countP (FairnessProcessing.cellPred true false) : ℚ) * F true false else 0)
          + (if p false true then
            (rs.countP (FairnessProcessing.cellPred false true) : ℚ) * F false true else 0)
          + (if p false false then
            (rs.countP (FairnessProcessing.cellPred false false) : ℚ) * F false false else 0) := by
  intro rs
  induction rs with
  | nil => simp
  | cons r rs ih =>
    obtain ⟨a, b⟩ := r
    simp only [List.filter_cons, List.countP_cons, FairnessProcessing.cellPred]
    by_cases h1 : a = 1 <;> by_cases h2 : b = 1 <;>
      simp [h1, h2, ih] <;> split_ifs <;> simp_all <;> push_cast <;> ring

lemma length_cells (rs : List (ℚ × ℚ)) :
    rs.length = rs.countP (FairnessProcessing.cellPred true true)
      + rs.countP (FairnessProcessing.cellPred true false)
      + rs.countP (FairnessProcessing.cellPred false true)
      + rs.countP (FairnessProcessing.cellPred false false) := by
  induction rs with
  | nil => rfl
  | cons r rs ih =>
    obtain ⟨a, b⟩ := r
    simp only [List.length_cons, List.countP_cons, FairnessProcessing.cellPred, ih]
    by_cases h1 : a = 1 <;> by_cases h2 : b = 1 <;> simp [h1, h2] <;> omega

lemma groupCount_cells (d : Dataset) (g : Bool) :
    FairnessProcessing.groupCount d g
      = FairnessProcessing.cellCount d g true + FairnessProcessing.cellCount d g false := by
  unfold FairnessProcessing.groupCount FairnessProcessing.cellCount
  induction d.rows with
  | nil => rfl
  | cons r rs ih =>
    obtain ⟨a, b⟩ := r
    simp only [List.countP_cons, FairnessProcessing.cellPred, ih]
    by_cases h1 : a = 1 <;> by_cases h2 : b = 1 <;> cases g <;> simp [h1, h2] <;> omega

lemma labelCount_cells (d : Dataset) (l : Bool) :
    FairnessProcessing.labelCount d l
      = FairnessProcessing.cellCount d true l + FairnessProcessing.cellCount d false l := by
  unfold FairnessProcessing.labelCount FairnessProcessing.cellCount
  induction d.rows with
  | nil => rfl
  | cons r rs ih =>
    obtain ⟨a, b⟩ := r
    simp only [List.countP_cons, FairnessProcessing.cellPred, ih]
    by_cases h1 : a = 1 <;> by_cases h2 : b = 1 <;> cases l <;> simp [h1, h2] <;> omega

open FairnessProcessing in
lemma weightedCellSum_reweigh (d : Dataset) (g l : Bool) :
    weightedCellSum (reweigh d) g l = (cellCount d g l : ℚ) * cellWeight d g l := by
  have h1 : weightedCellSum (reweigh d) g l
      = ((d.rows.filter (cellPred g l)).map
          fun r => cellWeight d (decide (r.1 = 1)) (decide (r.2 = 1))).sum :=
    zipWeights_filter_sum _ (cellPred g l) d.rows
  rw [h1]
  apply filter_map_sum_const
  intro r hr
  unfold FairnessProcessing.cellPred at hr
  simp only [Bool.and_eq_true, beq_iff_eq] at hr
  rw [hr.1, hr.2]

open FairnessProcessing in
lemma weightedGroupSum_reweigh (d : Dataset) (g : Bool) :
    weightedGroupSum (reweigh d) g
      = (cellCount d g true : ℚ) * cellWeight d g true
        + (cellCount d g false : ℚ) * cellWeight d g false := by
  have h1 : weightedGroupSum (reweigh d) g
      = ((d.rows.filter fun r => decide (r.1 = 1) == g).map
          fun r => cellWeight d (decide (r.1 = 1)) (decide (r.2 = 1))).sum :=
    zipWeights_filter_sum (fun r => cellWeight d (decide (r.1 = 1)) (decide (r.2 = 1)))
      (fun r => decide (r.1 = 1) == g) d.rows
  rw [h1]
  have h2 := filter_map_wt_sum (cellWeight d) (fun b1 _ => b1 == g) d.rows
  rw [h2]
  cases g <;> (simp [FairnessProcessing.cellCount]; try ring)

open FairnessProcessing in
lemma weightedLabelSum_reweigh (d : Dataset) (l : Bool) :
    weightedLabelSum (reweigh d) l
      = (cellCount d true l : ℚ) * cellWeight d true l
        + (cellCount d false l : ℚ) * cellWeight d false l := by
  have h1 : weightedLabelSum (reweigh d) l
      = ((d.rows.filter fun r => decide (r.2 = 1) == l).map
          fun r => cellWeight d (decide (r.1 = 1)) (decide (r.2 = 1))).sum :=
    zipWeights_filter_sum (fun r => cellWeight d (decide (r.1 = 1)) (decide (r.2 = 1)))
      (fun r => decide (r.2 = 1) == l) d.rows
  rw [h1]
  have h2 := filter_map_wt_sum (cellWeight d) (fun _ b2 => b2 == l) d.rows
  rw [h2]
  cases l <;> (simp [FairnessProcessing.cellCount]; try ring)

open FairnessProcessing in
lemma totalWeight_reweigh_counts (d : Dataset) :
    totalWeight (reweigh d)
      = (cellCount d true true : ℚ) * cellWeight d true true
        + (cellCount d true false : ℚ) * cellWeight d true false
        + (cellCount d false true : ℚ) * cellWeight d false true
        + (cellCount d false false : ℚ) * cellWeight d false false := by
  have h1 : totalWeight (reweigh d)
      = (d.rows.map fun r => cellWeight d (decide (r.1 = 1)) (decide (r.2 = 1))).sum :=
    rfl
  rw [h1, map_wt_sum (cellWeight d) d.rows]
  rfl

open FairnessProcessing in
lemma cellTerm (d : Dataset) (g l : Bool) (hgl : 0 < cellCount d g l)
    (hn : 0 < d.rows.length) :
    (cellCount d g l : ℚ) * cellWeight d g l
      = (groupCount d g : ℚ) * (labelCount d l : ℚ) / d.rows.length := by
  unfold FairnessProcessing.cellWeight
  have h1 : (cellCount d g l : ℚ) ≠ 0 := by positivity
  have h2 : ((d.rows.length : ℕ) : ℚ) ≠ 0 := by positivity
  field_simp
  ring

open FairnessProcessing in
lemma labelCount_total (d : Dataset) :
    labelCount d true + labelCount d false = d.rows.length := by
  rw [labelCount_cells d true, labelCount_cells d false, length_cells d.rows]
  unfold FairnessProcessing.cellCount
  omega

open FairnessProcessing in
lemma groupCount_total (d : Dataset) :
    groupCount d true + groupCount d false = d.rows.length := by
  rw [groupCount_cells d true, groupCount_cells d false, length_cells d.rows]
  unfold FairnessProcessing.cellCount
  omega

open FairnessProcessing in
lemma groupSum_closed (d : Dataset)
    (hA : 0 < cellCount d true true) (hB : 0 < cellCount d true false)
    (hC : 0 < cellCount d false true) (hE : 0 < cellCount d false false)
    (g : Bool) :
    weightedGroupSum (reweigh d) g = (groupCount d g : ℚ) := by
  have hn : 0 < d.rows.length := lt_of_lt_of_le hA (List.countP_le_length _)
  have hn' : ((d.rows.length : ℕ) : ℚ) ≠ 0 := by positivity
  have hL : ((labelCount d true : ℕ) : ℚ) + (labelCount d false : ℕ) = (d.rows.length : ℚ) := by
    exact_mod_cast congrArg Nat.cast (labelCount_total d)
  rw [weightedGroupSum_reweigh]
  cases g
  · rw [cellTerm d false true hC hn, cellTerm d false false hE hn]
    field_simp
    linear_combination (groupCount d false : ℚ) * hL
  · rw [cellTerm d true true hA hn, cellTerm d true false hB hn]
    field_simp
    linear_combination (groupCount d true : ℚ) * hL

open FairnessProcessing in
lemma labelSum_closed (d : Dataset)
    (hA : 0 < cellCount d true true) (hB : 0 < cellCount d true false)
    (hC : 0 < cellCount d false true) (hE : 0 < cellCount d false false)
    (l : Bool) :
    weightedLabelSum (reweigh d) l = (labelCount d l : ℚ) := by
  have hn : 0 < d.rows.length := lt_of_lt_of_le hA (List.countP_le_length _)
  have hn' : ((d.rows.length : ℕ) : ℚ) ≠ 0 := by positivity
  have hG : ((groupCount d true : ℕ) : ℚ) + (groupCount d false : ℕ) = (d.rows.length : ℚ) := by
    exact_mod_cast congrArg Nat.cast (groupCount_total d)
  rw [weightedLabelSum_reweigh]
  cases l
  · rw [cellTerm d true false hB hn, cellTerm d false false hE hn]
    field_simp
    linear_combination (labelCount d false : ℚ) * hG
  · rw [cellTerm d true true hA hn, cellTerm d false true hC hn]
    field_simp
    linear_combination (labelCount d true : ℚ) * hG

open FairnessProcessing in
lemma totalWeight_closed (d : Dataset)
    (hA : 0 < cellCount d true true) (hB : 0 < cellCount d true false)
    (hC : 0 < cellCount d false true) (hE : 0 < cellCount d false false) :
    totalWeight (reweigh d) = ((d.rows.length : ℕ) : ℚ) := by
  have hn : 0 < d.rows.length := lt_of_lt_of_le hA (List.countP_le_length _)
  have hn' : ((d.rows.length : ℕ) : ℚ) ≠ 0 := by positivity
  have hL : ((labelCount d true : ℕ) : ℚ) + (labelCount d false : ℕ) = (d.rows.length : ℚ) := by
    exact_mod_cast congrArg Nat.cast (labelCount_total d)
  have hG : ((groupCount d true : ℕ) : ℚ) + (groupCount d false : ℕ) = (d.rows.length : ℚ) := by
    exact_mod_cast congrArg Nat.cast (groupCount_total d)
  rw [totalWeight_reweigh_counts, cellTerm d true true hA hn, cellTerm d true false hB hn,
    cellTerm d false true hC hn, cellTerm d false false hE hn]
  field_simp
  linear_combination ((labelCount d true : ℚ) + (labelCount d false : ℚ)) * hG
    + ((d.rows.length : ℕ) : ℚ) * hL

open FairnessProcessing in
lemma cellSum_closed (d : Dataset)
    (hA : 0 < cellCount d true true) (hB : 0 < cellCount d true false)
    (hC : 0 < cellCount d false true) (hE : 0 < cellCount d false false)
    (g l : Bool) :
    weightedCellSum (reweigh d) g l
      = (groupCount d g : ℚ) * (labelCount d l : ℚ) / d.rows.length := by
  have hn : 0 < d.rows.length := lt_of_lt_of_le hA (List.countP_le_length _)
  rw [weightedCellSum_reweigh]
  cases g <;> cases l
  · exact cellTerm d false false hE hn
  · exact cellTerm d false true hC hn
  · exact cellTerm d true false hB hn
  · exact cellTerm d true true hA hn

/-- CLAIM C7: for every training dataset whose four (group, label) cells
are all non-empty, `reweigh` returns a copy with identical features and
labels, each row's new weight being the ratio of the expected joint
frequency (product of marginals) to the observed joint frequency of its
own (group, label) cell, and under the new weights protected-group
membership and label are statistically independent: the weighted joint
distribution of every (group, label) cell equals the product of the
weighted marginals. -/
theorem reweigh_weighted_independence (d : Dataset)
    (hA : 0 < FairnessProcessing.cellCount d true true)
    (hB : 0 < FairnessProcessing.cellCount d true false)
    (hC : 0 < FairnessProcessing.cellCount d false true)
    (hE : 0 < FairnessProcessing.cellCount d false false) :
    (FairnessProcessing.reweigh d).features = d.features ∧
    (FairnessProcessing.reweigh d).labels = d.labels ∧
    (FairnessProcessing.reweigh d).instanceWeights
      = d.rows.map (fun r =>
          FairnessProcessing.cellWeight d (decide (r.1 = 1)) (decide (r.2 = 1))) ∧
    ∀ g l : Bool,
      FairnessProcessing.weightedCellSum (FairnessProcessing.reweigh d) g l
          / FairnessProcessing.totalWeight (FairnessProcessing.reweigh d)
        = (FairnessProcessing.weightedGroupSum (FairnessProcessing.reweigh d) g
            / FairnessProcessing.totalWeight (FairnessProcessing.reweigh d))
          * (FairnessProcessing.weightedLabelSum (FairnessProcessing.reweigh d) l
            / FairnessProcessing.totalWeight (FairnessProcessing.reweigh d)) := by
  refine ⟨rfl, rfl, rfl, ?_⟩
  intro g l
  rw [totalWeight_closed d hA hB hC hE, groupSum_closed d hA hB hC hE g,
    labelSum_closed d hA hB hC hE l, cellSum_closed d hA hB hC hE g l]
  ring

/-- Witness for C7 on a four-row dataset with one row per cell. -/
theorem reweigh_weighted_independence_witness :
    (0 < FairnessProcessing.cellCount ds4 true true ∧
     0 < FairnessProcessing.cellCount ds4 true false ∧
     0 < FairnessProcessing.cellCount ds4 false true ∧
     0 < FairnessProcessing.cellCount ds4 false false) ∧
    ((FairnessProcessing.reweigh ds4).features = ds4.features ∧
     (FairnessProcessing.reweigh ds4).labels = ds4.labels ∧
     (FairnessProcessing.reweigh ds4).instanceWeights
       = ds4.rows.map (fun r =>
           FairnessProcessing.cellWeight ds4 (decide (r.1 = 1)) (decide (r.2 = 1))) ∧
     ∀ g l : Bool,
       FairnessProcessing.weightedCellSum (FairnessProcessing.reweigh ds4) g l
           / FairnessProcessing.totalWeight (FairnessProcessing.reweigh ds4)
         = (FairnessProcessing.weightedGroupSum (FairnessProcessing.reweigh ds4) g
             / FairnessProcessing.totalWeight (FairnessProcessing.reweigh ds4))
           * (FairnessProcessing.weightedLabelSum (FairnessProcessing.reweigh ds4) l
             / FairnessProcessing.totalWeight (FairnessProcessing.reweigh ds4))) :=
  ⟨⟨by with_unfolding_all decide, by with_unfolding_all decide,
    by with_unfolding_all decide, by with_unfolding_all decide⟩,
   reweigh_weighted_independence ds4 (by with_unfolding_all decide)
     (by with_unfolding_all decide) (by with_unfolding_all decide)
     (by with_unfolding_all decide)⟩
